import Mathlib

/-!
# Verification of the PSO2 tools core: CCL container decoding and the bone-name codec

Shallow embedding of `pso2_tools/ccl.py` (the NIFL/REL0 color-set container
reader), `pso2_tools/fbx_wrapper.py` (the bone-name encode/decode codec) and
`pso2_tools/operators/rename_bones.py` (the batch bone renamer), together with
proofs of the specified properties.

Bytes are modelled as `Nat` (values < 256 in well-formed buffers), byte buffers
as `List Nat`, Python strings as `List Char`, Python `dict` as an ordered
association list with in-place overwrite (exactly Python's insertion-order
semantics), and fallible decoding as `Except`.
-/

namespace Pso2Tools

/-! ## ccl.py : `int_to_color` -/

/-- Embedding of `ccl.int_to_color`: extracts the four bytes of a packed ARGB
value and divides each by 255, returning `(r, g, b, a)`.  Python performs the
division in floating point; since each channel is an 8-bit integer divided by
the fixed constant 255, the rational model gives the same equality facts. -/
def int_to_color (value : Nat) : ℚ × ℚ × ℚ × ℚ :=
  let a : ℚ := (((value >>> 24) &&& 0xFF : Nat) : ℚ) / 0xFF
  let r : ℚ := (((value >>> 16) &&& 0xFF : Nat) : ℚ) / 0xFF
  let g : ℚ := (((value >>> 8) &&& 0xFF : Nat) : ℚ) / 0xFF
  let b : ℚ := (((value >>> 0) &&& 0xFF : Nat) : ℚ) / 0xFF
  (r, g, b, a)

/-! ## ccl.py : data model -/

/-- Embedding of the `Pso2CclColorSet` dataclass: one 28-byte record of seven
unsigned 32-bit fields. -/
structure Pso2CclColorSet where
  id : Nat
  outerwear1 : Nat
  outerwear2 : Nat
  basewear1 : Nat
  basewear2 : Nat
  innerwear1 : Nat
  innerwear2 : Nat
deriving DecidableEq, Repr

/-- One Python `dict` assignment `d[k] = v` on an insertion-ordered association
list: replaces the value at an existing key in place, else appends at the
end.  This is exactly CPython dict semantics. -/
def dictInsert : List (Nat × Pso2CclColorSet) → Nat → Pso2CclColorSet →
    List (Nat × Pso2CclColorSet)
  | [], k, v => [(k, v)]
  | p :: d, k, v => if p.1 = k then (k, v) :: d else p :: dictInsert d k v

/-- Embedding of the `Pso2Ccl` class: its `_sets` dict. -/
structure Pso2Ccl where
  sets : List (Nat × Pso2CclColorSet)
deriving DecidableEq, Repr

/-- Embedding of `Pso2Ccl.__init__`: `self._sets = {item.id: item for item in sets}`. -/
def Pso2Ccl.ofList (l : List Pso2CclColorSet) : Pso2Ccl :=
  ⟨l.foldl (fun d s => dictInsert d s.id s) []⟩

/-- Embedding of `Pso2Ccl.__getitem__`: `self._sets.get(key)` (`None` on a
missing key, never an exception). -/
def Pso2Ccl.getItem (c : Pso2Ccl) (key : Nat) : Option Pso2CclColorSet :=
  (c.sets.find? (fun p => p.1 == key)).map Prod.snd

/-! ## ccl.py : `Pso2Ccl.read` -/

/-- The typed decode errors.  In the Python source `invalidMagic`,
`missingRel0Header` and `corruptRecordCount` are the `ValueError`s
"Not a NIFL file", "Could not find REL0 header" and "Array size is incorrect";
`structError` is the `struct.error` raised by `struct.unpack` on a short read. -/
inductive CclError where
  | invalidMagic
  | missingRel0Header
  | corruptRecordCount
  | structError
deriving DecidableEq, Repr

/-- A binary file cursor, mirroring the `BinaryIO` handle used by
`Pso2Ccl.read`: the number of bytes consumed so far (the `fp.tell()` value)
and the bytes still ahead of the cursor. -/
structure ByteReader where
  consumed : Nat
  remaining : List Nat
deriving Repr

/-- `fp.read n`: returns up to `n` bytes (fewer at end of file) and advances
the cursor by the number of bytes actually read. -/
def ByteReader.readBytes (r : ByteReader) (n : Nat) : List Nat × ByteReader :=
  let bs := r.remaining.take n
  (bs, ⟨r.consumed + bs.length, r.remaining.drop n⟩)

/-- `fp.seek n os.SEEK_CUR`: moves the cursor forward (Python permits seeking
past the end of the file, after which reads return nothing). -/
def ByteReader.seekCur (r : ByteReader) (n : Nat) : ByteReader :=
  ⟨r.consumed + n, r.remaining.drop n⟩

/-- Value of four bytes as a little-endian unsigned 32-bit integer. -/
def u32val (b0 b1 b2 b3 : Nat) : Nat :=
  b0 + 256 * (b1 + 256 * (b2 + 256 * b3))

/-- `struct.unpack "I"` on the result of a 4-byte read: requires exactly four
bytes, else `struct.error`. -/
def unpackU32 : List Nat → Except CclError Nat
  | [b0, b1, b2, b3] => .ok (u32val b0 b1 b2 b3)
  | _ => .error .structError

/-- `struct.unpack "<IIIIIII"` on the result of a 28-byte read: seven
little-endian `u32` fields in declaration order. -/
def unpackRecord : List Nat → Except CclError Pso2CclColorSet
  | [a0, a1, a2, a3, b0, b1, b2, b3, c0, c1, c2, c3, d0, d1, d2, d3,
     e0, e1, e2, e3, f0, f1, f2, f3, g0, g1, g2, g3] =>
    .ok ⟨u32val a0 a1 a2 a3, u32val b0 b1 b2 b3, u32val c0 c1 c2 c3,
         u32val d0 d1 d2 d3, u32val e0 e1 e2 e3, u32val f0 f1 f2 f3,
         u32val g0 g1 g2 g3⟩
  | _ => .error .structError

/-- The record-reading loop of `Pso2Ccl.read`: `for _ in range(count)` read 28
bytes and unpack one record. -/
def readRecords : ByteReader → Nat → Except CclError (List Pso2CclColorSet)
  | _, 0 => .ok []
  | r, n + 1 =>
    let (bs, rNext) := r.readBytes 28
    match unpackRecord bs with
    | .error e => .error e
    | .ok item =>
      match readRecords rNext n with
      | .error e => .error e
      | .ok rest => .ok (item :: rest)

/-- The ASCII bytes of the magic tag `NIFL`. -/
def niflMagic : List Nat := [0x4E, 0x49, 0x46, 0x4C]

/-- The ASCII bytes of the magic tag `REL0`. -/
def rel0Magic : List Nat := [0x52, 0x45, 0x4C, 0x30]

/-- Embedding of `Pso2Ccl.read`.  The record-count test mirrors Python's
`array_count = (size - data_offset) / 28; if int(array_count) != array_count`:
the float quotient is an integer exactly when `28 ∣ (size - data_offset)` over
ℤ (all operands are well below 2^53, so the float test is exact), and
`range(int(array_count))` of a negative count is empty, which `Int.toNat`
reproduces. -/
def pso2CclRead (buf : List Nat) : Except CclError Pso2Ccl :=
  let r : ByteReader := ⟨0, buf⟩
  let (magic, r) := r.readBytes 4
  if magic ≠ niflMagic then .error .invalidMagic else
  let (sizeBytes, r) := r.readBytes 4
  match unpackU32 sizeBytes with
  | .error e => .error e
  | .ok size =>
    let r := r.seekCur size
    let rel0Start := r.consumed
    let (magic2, r) := r.readBytes 4
    if magic2 ≠ rel0Magic then .error .missingRel0Header else
    let r := r.seekCur 4
    let (sizeBytes2, r) := r.readBytes 4
    match unpackU32 sizeBytes2 with
    | .error e => .error e
    | .ok rel0Size =>
      let r := r.seekCur 8
      let dataStart := r.consumed
      let dataOffset := dataStart - rel0Start
      let diff : Int := (rel0Size : Int) - (dataOffset : Int)
      if diff % 28 ≠ 0 then .error .corruptRecordCount else
      match readRecords r (diff / 28).toNat with
      | .error e => .error e
      | .ok colorSets => .ok (Pso2Ccl.ofList colorSets)

/-! ## Container construction (the byte layouts described by the claims) -/

/-- Little-endian 4-byte encoding of an unsigned 32-bit value. -/
def u32le (n : Nat) : List Nat :=
  [n % 256, n / 256 % 256, n / 65536 % 256, n / 16777216 % 256]

/-- The 28-byte wire encoding of one color-set record. -/
def encRecord (s : Pso2CclColorSet) : List Nat :=
  u32le s.id ++ u32le s.outerwear1 ++ u32le s.outerwear2 ++ u32le s.basewear1 ++
  u32le s.basewear2 ++ u32le s.innerwear1 ++ u32le s.innerwear2

/-- A NIFL container: magic, header size, skippable header bytes, `REL0`,
4 reserved bytes, the declared `rel0_size`, 8 reserved bytes, payload. -/
def mkContainer (headerBytes resA : List Nat) (rel0Size : Nat)
    (resB payload : List Nat) : List Nat :=
  niflMagic ++ u32le headerBytes.length ++ headerBytes ++
  rel0Magic ++ resA ++ u32le rel0Size ++ resB ++ payload

/-! ## fbx_wrapper.py : the bone-name codec

`BONE_PATTERN  = ^\((\d+)\)(.+(?:#.+(?:#.+)?)?)$`   — `(id)name#short1#short2`
`BONE_PATTERN_2 = ^(.+(?:#.+(?:#.+)?)?)\((\d+)\)$`  — `name#short1#short2(id)`

Both functions below implement the exact match semantics of these regexes on
strings (Python `re`, no MULTILINE/DOTALL):

* `.` matches every character except `'\n'`; `$` matches at the end of the
  string or just before a terminal `'\n'`.
* The group `.+(?:#.+(?:#.+)?)?` matches precisely the non-empty
  newline-free strings (the greedy `.+` can absorb every `#`), capturing the
  whole of what it is matched against.
* In `BONE_PATTERN`, `\d+` must be followed by the literal `)`, so only the
  maximal digit run after `(` can match.
* In `BONE_PATTERN_2`, the trailing `\((\d+)\)$` forces the suffix
  `(digits)` at the end of the string; any candidate `(` other than the one
  immediately left of the maximal digit run preceding the final `)` would
  put a `(` inside the digit run, so the decomposition is unique.
-/

/-- Strip the single terminal newline that a Python `$` anchor may skip. -/
def stripNewline (s : List Char) : List Char :=
  if s.getLast? = some '\n' then s.dropLast else s

/-- Match of the capture group `(.+(?:#.+(?:#.+)?)?)` against the remainder
`r` followed by `$`: succeeds on any non-empty newline-free string (after
discounting a terminal newline consumed by `$`), capturing all of it. -/
def groupTail (r : List Char) : Option (List Char) :=
  let t := stripNewline r
  if t ≠ [] ∧ '\n' ∉ t then some t else none

/-- `BONE_PATTERN.match`: returns `(digits, name)` captures. -/
def bonePatternMatch (s : List Char) : Option (List Char × List Char) :=
  match s with
  | '(' :: t =>
    let ds := t.takeWhile Char.isDigit
    match t.dropWhile Char.isDigit with
    | ')' :: r => if ds = [] then none else (groupTail r).map (fun g => (ds, g))
    | _ => none
  | _ => none

/-- `BONE_PATTERN_2.match`: returns `(name, digits)` captures. -/
def bonePattern2Match (s : List Char) : Option (List Char × List Char) :=
  let t := stripNewline s
  match t.reverse with
  | ')' :: revBody =>
    let revDs := revBody.takeWhile Char.isDigit
    match revBody.dropWhile Char.isDigit with
    | '(' :: revName =>
      if revDs = [] ∨ revName = [] ∨ '\n' ∈ revName then none
      else some (revName.reverse, revDs.reverse)
    | _ => none
  | _ => none

/-- Python `int` on a (non-empty) decimal digit string. -/
def digitsToNat (ds : List Char) : Nat :=
  ds.foldl (fun acc c => 10 * acc + (c.toNat - 48)) 0

/-- Embedding of `fbx_wrapper.split_bone_name`: try `BONE_PATTERN` first,
then `BONE_PATTERN_2`, else no identifier. -/
def split_bone_name (s : List Char) : Option (List Char × Nat) :=
  match bonePatternMatch s with
  | some (ds, rest) => some (rest, digitsToNat ds)
  | none =>
    match bonePattern2Match s with
    | some (nm, ds) => some (nm, digitsToNat ds)
    | none => none

/-- The decimal digit characters, indexed by value. -/
def digitChars : List Char := ['0', '1', '2', '3', '4', '5', '6', '7', '8', '9']

/-- The character of one decimal digit. -/
def digitChar (d : Nat) : Char := digitChars.getD d '0'

/-- Python `str` of a non-negative integer: its decimal digits. -/
def natStr (n : Nat) : List Char :=
  if n = 0 then ['0'] else (Nat.digits 10 n).reverse.map digitChar

/-- Embedding of `fbx_wrapper.join_bone_name`: `f"({bone_id}){name}"`. -/
def join_bone_name (nm : List Char) (boneId : Nat) : List Char :=
  '(' :: (natStr boneId ++ ')' :: nm)

/-! ## operators/rename_bones.py : the batch renamer -/

/-- A skeletal bone as the operator sees it: its name and its optional
`pso2_bone_id` custom property. -/
structure Bone where
  name : List Char
  boneId : Option Nat
deriving DecidableEq, Repr

/-- The selection predicate of `_get_bones_with_ids_in_names`: the bone's name
matches `BONE_PATTERN` or `BONE_PATTERN_2`. -/
def boneNameHasId (b : Bone) : Bool :=
  (bonePatternMatch b.name).isSome || (bonePattern2Match b.name).isSome

/-- Embedding of `_get_bones_with_ids_in_names` over a flat bone collection. -/
def getBonesWithIdsInNames (allBones : List Bone) : List Bone :=
  allBones.filter boneNameHasId

/-- Embedding of `_find_duplicate_bones`: yields `bone.name` each time a name
recurs among the *current* names of the batch. -/
def findDuplicateBones (seen : List (List Char)) : List Bone → List (List Char)
  | [] => []
  | b :: rest =>
    if b.name ∈ seen then b.name :: findDuplicateBones (b.name :: seen) rest
    else findDuplicateBones (b.name :: seen) rest

/-- Blender operator return status. -/
inductive OperatorStatus where
  | finished
  | cancelled
deriving DecidableEq, Repr

/-- Outcome of `OBJECT_OT_pso2_rename_bones.execute`: the status, the final
state of every bone, and the duplicate names given to `self.report`. -/
structure RenameBonesResult where
  status : OperatorStatus
  bones : List Bone
  reportedDuplicates : List (List Char)
deriving DecidableEq, Repr

/-- The per-bone mutation of the rename loop: `if result :=
split_bone_name(bone.name): bone.name = result[0]; bone[BONE_ID] = result[1]`. -/
def applyRename (b : Bone) : Bone :=
  match split_bone_name b.name with
  | some (nm, i) => ⟨nm, some i⟩
  | none => b

/-- Embedding of `OBJECT_OT_pso2_rename_bones.execute`: collect the bones whose
names match a pattern, cancel (mutating nothing) if `_find_duplicate_bones`
reports any duplicate among their current names, else rename each matching
bone in place. -/
def renameBonesExecute (allBones : List Bone) : RenameBonesResult :=
  let bones := getBonesWithIdsInNames allBones
  match findDuplicateBones [] bones with
  | [] =>
    ⟨.finished, allBones.map (fun b => if boneNameHasId b then applyRename b else b), []⟩
  | dupes => ⟨.cancelled, allBones, dupes⟩

/-! ## Decoding lemmas for the container reader -/

/-- The record-reading loop viewed on the remaining bytes only (the cursor of
`readRecords` advances monotonically, so only the suffix matters). -/
def recList : List Nat → Nat → Except CclError (List Pso2CclColorSet)
  | _, 0 => .ok []
  | bytes, n + 1 =>
    match unpackRecord (bytes.take 28) with
    | .error e => .error e
    | .ok item =>
      match recList (bytes.drop 28) n with
      | .error e => .error e
      | .ok rest => .ok (item :: rest)

theorem readRecords_eq_recList (n : Nat) (c : Nat) (rem : List Nat) :
    readRecords ⟨c, rem⟩ n = recList rem n := by
  induction n generalizing c rem with
  | zero => rfl
  | succ n ih =>
    simp only [readRecords, recList, ByteReader.readBytes]
    cases h : unpackRecord (rem.take 28) with
    | error e => simp
    | ok item => simp only [ih]

theorem recList_ne_corrupt (bytes : List Nat) (n : Nat) :
    recList bytes n ≠ .error .corruptRecordCount := by
  induction n generalizing bytes with
  | zero => simp [recList]
  | succ n ih =>
    simp only [recList]
    cases h : unpackRecord (bytes.take 28) with
    | error e =>
      unfold unpackRecord at h
      split at h
      · cases h
      · cases h; simp
    | ok item =>
      cases h2 : recList (bytes.drop 28) n with
      | error e =>
        intro hc
        exact ih (bytes.drop 28) (by rw [h2]; cases hc; rfl)
      | ok rest => simp

theorem unpackU32_u32le {n : Nat} (h : n < 2 ^ 32) : unpackU32 (u32le n) = .ok n := by
  simp only [u32le, unpackU32, u32val]
  congr 1
  omega

theorem u32le_length (n : Nat) : (u32le n).length = 4 := rfl

theorem take_u32le (n : Nat) (R : List Nat) : (u32le n ++ R).take 4 = u32le n :=
  List.take_left' (u32le_length n)

theorem drop_u32le (n : Nat) (R : List Nat) : (u32le n ++ R).drop 4 = R :=
  List.drop_left' (u32le_length n)

theorem take_nifl (R : List Nat) : (niflMagic ++ R).take 4 = niflMagic :=
  List.take_left' rfl

theorem drop_nifl (R : List Nat) : (niflMagic ++ R).drop 4 = R :=
  List.drop_left' rfl

theorem take_rel0 (R : List Nat) : (rel0Magic ++ R).take 4 = rel0Magic :=
  List.take_left' rfl

theorem drop_rel0 (R : List Nat) : (rel0Magic ++ R).drop 4 = R :=
  List.drop_left' rfl

/-- Decoding a well-formed container: the header and REL0 bookkeeping always
puts the cursor 20 bytes past `rel0_start` (magic 4 + reserved 4 + size field
4 + reserved 8), so the read succeeds or fails purely by the record-count test
on `rel0_size - 20` and the record parse of the payload. -/
theorem pso2CclRead_mkContainer (hb a b payload : List Nat) (sz : Nat)
    (hhb : hb.length < 2 ^ 32) (ha : a.length = 4) (hsz : sz < 2 ^ 32)
    (hbl : b.length = 8) :
    pso2CclRead (mkContainer hb a sz b payload) =
      if ((sz : Int) - 20) % 28 ≠ 0 then .error .corruptRecordCount
      else
        match recList payload (((sz : Int) - 20) / 28).toNat with
        | .error e => .error e
        | .ok colorSets => .ok (Pso2Ccl.ofList colorSets) := by
  have hdropa : ∀ R : List Nat, (a ++ R).drop 4 = R := fun R => List.drop_left' ha
  have hdropb : ∀ R : List Nat, (b ++ R).drop 8 = R := fun R => List.drop_left' hbl
  unfold pso2CclRead mkContainer
  simp only [List.append_assoc, ByteReader.readBytes, ByteReader.seekCur,
    take_nifl, drop_nifl, take_u32le, drop_u32le, take_rel0, drop_rel0,
    unpackU32_u32le hhb, unpackU32_u32le hsz, List.drop_left,
    hdropa, hdropb, u32le_length,
    readRecords_eq_recList]
  rw [show (0 + niflMagic.length + 4 + hb.length + rel0Magic.length + 4 + 4 + 8 -
      (0 + niflMagic.length + 4 + hb.length)) = 20 from by
    simp only [niflMagic, rel0Magic, List.length_cons, List.length_nil]
    omega]
  simp

/-! ## Dictionary semantics -/

theorem find?_pair_cons (p : Nat × Pso2CclColorSet)
    (d : List (Nat × Pso2CclColorSet)) (k : Nat) :
    (p :: d).find? (fun q => q.1 == k) =
      if p.1 = k then some p else d.find? (fun q => q.1 == k) := by
  by_cases h : p.1 = k
  · rw [if_pos h, List.find?_cons_of_pos _ (by simpa using h)]
  · rw [if_neg h, List.find?_cons_of_neg _ (by simpa using h)]

theorem find?_rec_cons (s : Pso2CclColorSet) (t : List Pso2CclColorSet) (k : Nat) :
    (s :: t).find? (fun x => x.id == k) =
      if s.id = k then some s else t.find? (fun x => x.id == k) := by
  by_cases h : s.id = k
  · rw [if_pos h, List.find?_cons_of_pos _ (by simpa using h)]
  · rw [if_neg h, List.find?_cons_of_neg _ (by simpa using h)]

theorem find?_dictInsert (d : List (Nat × Pso2CclColorSet)) (k k' : Nat)
    (v : Pso2CclColorSet) :
    (dictInsert d k' v).find? (fun p => p.1 == k) =
      if k' = k then some (k', v) else d.find? (fun p => p.1 == k) := by
  induction d with
  | nil =>
    by_cases h : k' = k <;> simp [dictInsert, find?_pair_cons, h]
  | cons p d ih =>
    by_cases hp : p.1 = k'
    · by_cases h : k' = k
      · subst h
        simp [dictInsert, hp, find?_pair_cons]
      · have hpk : ¬ p.1 = k := by rw [hp]; exact h
        simp [dictInsert, hp, find?_pair_cons, h, hpk]
    · by_cases hk : p.1 = k
      · have hne : ¬ k' = k := fun h => hp (by rw [h, hk])
        have hne2 : ¬ k = k' := fun h => hne h.symm
        simp [dictInsert, hp, find?_pair_cons, hk, hne, hne2]
      · simp [dictInsert, hp, find?_pair_cons, hk, ih]

/-- Lookup in the dict built by the `Pso2Ccl` constructor: the last record in
file order with the requested id wins. -/
theorem ofList_getItem (l : List Pso2CclColorSet) (k : Nat) :
    (Pso2Ccl.ofList l).getItem k = l.reverse.find? (fun s => s.id == k) := by
  suffices h : ∀ (l : List Pso2CclColorSet) (d : List (Nat × Pso2CclColorSet)) (k : Nat),
      ((l.foldl (fun d s => dictInsert d s.id s) d).find? (fun p => p.1 == k)).map Prod.snd =
        (l.reverse.find? (fun s => s.id == k)).or
          ((d.find? (fun p => p.1 == k)).map Prod.snd) by
    have := h l [] k
    simpa [Pso2Ccl.ofList, Pso2Ccl.getItem, Option.or_none, List.find?_nil] using this
  intro l
  induction l with
  | nil => simp [List.find?_nil]
  | cons s t ih =>
    intro d k
    simp only [List.foldl_cons, List.reverse_cons, List.find?_append, ih]
    rw [Option.or_assoc]
    congr 1
    rw [find?_dictInsert]
    by_cases h : s.id = k
    · simp [find?_rec_cons, h, List.find?_nil]
    · simp [find?_rec_cons, h, List.find?_nil]

/-! ## Record encodings -/

/-- All seven fields of a record fit in 32 bits. -/
def recordWf (s : Pso2CclColorSet) : Prop :=
  s.id < 2 ^ 32 ∧ s.outerwear1 < 2 ^ 32 ∧ s.outerwear2 < 2 ^ 32 ∧
  s.basewear1 < 2 ^ 32 ∧ s.basewear2 < 2 ^ 32 ∧ s.innerwear1 < 2 ^ 32 ∧
  s.innerwear2 < 2 ^ 32

instance (s : Pso2CclColorSet) : Decidable (recordWf s) := by
  unfold recordWf; infer_instance

theorem encRecord_length (s : Pso2CclColorSet) : (encRecord s).length = 28 := rfl

theorem unpackRecord_encRecord {s : Pso2CclColorSet} (h : recordWf s) :
    unpackRecord (encRecord s) = .ok s := by
  obtain ⟨i, o1, o2, w1, w2, n1, n2⟩ := s
  obtain ⟨h1, h2, h3, h4, h5, h6, h7⟩ := h
  simp only at h1 h2 h3 h4 h5 h6 h7
  simp only [encRecord, u32le, List.cons_append, List.nil_append, unpackRecord,
    u32val, Except.ok.injEq, Pso2CclColorSet.mk.injEq]
  refine ⟨by omega, by omega, by omega, by omega, by omega, by omega, by omega⟩

theorem recList_two {r1 r2 : Pso2CclColorSet} (h1 : recordWf r1) (h2 : recordWf r2) :
    recList (encRecord r1 ++ encRecord r2) 2 = .ok [r1, r2] := by
  have t1 : (encRecord r1 ++ encRecord r2).take 28 = encRecord r1 :=
    List.take_left' (encRecord_length r1)
  have d1 : (encRecord r1 ++ encRecord r2).drop 28 = encRecord r2 :=
    List.drop_left' (encRecord_length r1)
  have t2 : (encRecord r2).take 28 = encRecord r2 := by
    rw [show (28 : Nat) = (encRecord r2).length from rfl, List.take_length]
  simp only [recList, t1, d1, t2, unpackRecord_encRecord h1, unpackRecord_encRecord h2]

/-! ## Decimal digit lemmas for the name codec -/

theorem digitChar_isDigit : ∀ d, d < 10 → (digitChar d).isDigit = true := by decide

theorem digitChar_val : ∀ d, d < 10 → (digitChar d).toNat - 48 = d := by decide

theorem natStr_ne_nil (n : Nat) : natStr n ≠ [] := by
  unfold natStr
  split
  · simp
  · simp [List.map_eq_nil_iff, Nat.digits_ne_nil_iff_ne_zero, *]

theorem natStr_isDigit (n : Nat) : ∀ c ∈ natStr n, c.isDigit = true := by
  intro c hc
  unfold natStr at hc
  split at hc
  · simp only [List.mem_singleton] at hc
    subst hc
    decide
  · simp only [List.mem_map, List.mem_reverse] at hc
    obtain ⟨d, hd, rfl⟩ := hc
    exact digitChar_isDigit d (Nat.digits_lt_base (by norm_num) hd)

theorem foldl_digits (l : List Nat) (hl : ∀ d ∈ l, d < 10) (acc : Nat) :
    (l.reverse.map digitChar).foldl (fun a c => 10 * a + (c.toNat - 48)) acc =
      acc * 10 ^ l.length + Nat.ofDigits 10 l := by
  induction l generalizing acc with
  | nil => simp [Nat.ofDigits]
  | cons d t ih =>
    have hd : d < 10 := hl d (by simp)
    have ht : ∀ x ∈ t, x < 10 := fun x hx => hl x (by simp [hx])
    simp only [List.reverse_cons, List.map_append, List.foldl_append, ih ht,
      List.map_cons, List.foldl_cons, List.map_nil, List.foldl_nil,
      List.length_cons, Nat.ofDigits_cons]
    rw [digitChar_val d hd]
    ring

theorem digitsToNat_natStr (n : Nat) : digitsToNat (natStr n) = n := by
  unfold natStr digitsToNat
  split
  · next h => rw [h]; rfl
  · rw [foldl_digits _ (fun d hd => Nat.digits_lt_base (by norm_num) hd) 0]
    simp [Nat.ofDigits_digits]

/-! ## The round trip of the bone-name codec -/

theorem groupTail_of_clean {nm : List Char} (hne : nm ≠ []) (hnl : '\n' ∉ nm) :
    groupTail nm = some nm := by
  have hlast : ¬ nm.getLast? = some '\n' :=
    fun h => hnl (List.mem_of_getLast?_eq_some h)
  simp only [groupTail, stripNewline, if_neg hlast]
  rw [if_pos ⟨hne, hnl⟩]

/-- `split_bone_name (join_bone_name nm i) = some (nm, i)` for every non-empty
newline-free name: the canonical prefix pattern always matches, its trailing
capture group absorbing `#`, `(` and `)` alike. -/
theorem splitJoin (nm : List Char) (i : Nat) (hne : nm ≠ []) (hnl : '\n' ∉ nm) :
    split_bone_name (join_bone_name nm i) = some (nm, i) := by
  have hdig : ∀ c ∈ natStr i, Char.isDigit c = true := natStr_isDigit i
  have htake : (natStr i ++ ')' :: nm).takeWhile Char.isDigit = natStr i := by
    rw [List.takeWhile_append_of_pos hdig, List.takeWhile_cons_of_neg (by decide)]
    simp
  have hdrop : (natStr i ++ ')' :: nm).dropWhile Char.isDigit = ')' :: nm := by
    rw [List.dropWhile_append_of_pos hdig, List.dropWhile_cons_of_neg (by decide)]
  unfold join_bone_name split_bone_name bonePatternMatch
  simp only [htake, hdrop, groupTail_of_clean hne hnl, natStr_ne_nil i,
    if_neg (natStr_ne_nil i), digitsToNat_natStr]
  simp [digitsToNat_natStr]

/-! ## Bridging arithmetic for the record-count test -/

theorem corrupt_cond_iff (sz : Nat) :
    (((sz : Int) - 20) % 28 = 0) ↔ ∃ k : Nat, sz = 20 + 28 * k := by
  rw [← Int.dvd_iff_emod_eq_zero]
  constructor
  · rintro ⟨c, hc⟩
    exact ⟨c.toNat, by omega⟩
  · rintro ⟨k, rfl⟩
    exact ⟨(k : Int), by push_cast; ring⟩

/-! ## The claims -/

/-- C1: the import-direction batch rename is claimed to fail with a duplicate
error and mutate nothing when two bones decode to the same bare name.  The
code does not do this: `_find_duplicate_bones` compares the *current* names
(which are distinct), so on bones named `(1)Arm` and `(2)Arm` the operator
reports no duplicates, returns FINISHED and renames both bones to `Arm`. -/
theorem c1_rename_executes_despite_colliding_targets :
    renameBonesExecute [⟨"(1)Arm".toList, none⟩, ⟨"(2)Arm".toList, none⟩] =
      ⟨.finished, [⟨"Arm".toList, some 1⟩, ⟨"Arm".toList, some 2⟩], []⟩ := by
  rfl

/-- C2 (counterexample): the round-trip law fails for the empty name: both
patterns require a non-empty captured name, so `decode (encode "" 0)` is
`none`, not `("", 0)`. -/
theorem c2_counterexample_empty_name :
    split_bone_name (join_bone_name [] 0) ≠ some (([] : List Char), 0) := by
  decide

/-- C2 (amended): for every NON-EMPTY name containing none of `#`, `(`, `)`
and no newline, and every id ≥ 0, `split_bone_name (join_bone_name n id)`
returns `(n, id)`. -/
theorem c2_roundtrip_plain_names (n : List Char) (i : Nat) (hne : n ≠ [])
    (hnl : '\n' ∉ n) (_hh : '#' ∉ n) (_hop : '(' ∉ n) (_hcl : ')' ∉ n) :
    split_bone_name (join_bone_name n i) = some (n, i) :=
  splitJoin n i hne hnl

/-- C2 witness: the amended round trip at the concrete name `Arm`, id 7. -/
theorem c2_roundtrip_plain_names_witness :
    split_bone_name (join_bone_name "Arm".toList 7) = some ("Arm".toList, 7) :=
  c2_roundtrip_plain_names "Arm".toList 7 (by decide) (by decide) (by decide)
    (by decide) (by decide)

/-- C3 (counterexample): the container described by the claim — header size 0
and `rel0_size = 8 + 28*2 = 64` before two well-formed records — does NOT
decode: the reader computes `data_offset = 20` (REL0 magic 4 + reserved 4 +
size field 4 + reserved 8), and `(64 - 20) / 28` is not an integer, so the
read fails with `CorruptRecordCount`. -/
theorem c3_counterexample_spec_size :
    pso2CclRead (mkContainer [] [0, 0, 0, 0] 64 [0, 0, 0, 0, 0, 0, 0, 0]
        (encRecord ⟨1, 2, 3, 4, 5, 6, 7⟩ ++ encRecord ⟨2, 8, 9, 10, 11, 12, 13⟩)) =
      .error .corruptRecordCount := by
  rfl

/-- C3 (amended): with `rel0_size = 20 + 28*2 = 76` the same container shape
decodes without error into a table of exactly 2 entries, each keyed by that
record's id field. -/
theorem c3_two_record_container_decodes (a b : List Nat) (r1 r2 : Pso2CclColorSet)
    (ha : a.length = 4) (hbl : b.length = 8) (h1 : recordWf r1) (h2 : recordWf r2)
    (hid : r1.id ≠ r2.id) :
    pso2CclRead (mkContainer [] a 76 b (encRecord r1 ++ encRecord r2)) =
      .ok (Pso2Ccl.ofList [r1, r2]) ∧
    (Pso2Ccl.ofList [r1, r2]).sets.length = 2 ∧
    (Pso2Ccl.ofList [r1, r2]).getItem r1.id = some r1 ∧
    (Pso2Ccl.ofList [r1, r2]).getItem r2.id = some r2 := by
  have hsets : (Pso2Ccl.ofList [r1, r2]).sets = [(r1.id, r1), (r2.id, r2)] := by
    simp [Pso2Ccl.ofList, dictInsert, hid]
  refine ⟨?_, ?_, ?_, ?_⟩
  · rw [pso2CclRead_mkContainer [] a b (encRecord r1 ++ encRecord r2) 76
      (by norm_num) ha (by norm_num) hbl]
    rw [if_neg (by decide)]
    rw [show ((((76 : Nat) : Int) - 20) / 28).toNat = 2 from by decide]
    rw [recList_two h1 h2]
  · rw [hsets]; rfl
  · unfold Pso2Ccl.getItem
    rw [hsets, find?_pair_cons, if_pos rfl]
    rfl
  · unfold Pso2Ccl.getItem
    rw [hsets, find?_pair_cons, if_neg hid, find?_pair_cons, if_pos rfl]
    rfl

/-- C3 witness: the amended decode at two concrete records. -/
theorem c3_two_record_container_decodes_witness :
    pso2CclRead (mkContainer [] [0, 0, 0, 0] 76 [0, 0, 0, 0, 0, 0, 0, 0]
        (encRecord ⟨1, 2, 3, 4, 5, 6, 7⟩ ++ encRecord ⟨2, 8, 9, 10, 11, 12, 13⟩)) =
      .ok (Pso2Ccl.ofList [⟨1, 2, 3, 4, 5, 6, 7⟩, ⟨2, 8, 9, 10, 11, 12, 13⟩]) :=
  (c3_two_record_container_decodes [0, 0, 0, 0] [0, 0, 0, 0, 0, 0, 0, 0]
    ⟨1, 2, 3, 4, 5, 6, 7⟩ ⟨2, 8, 9, 10, 11, 12, 13⟩ rfl rfl (by decide) (by decide)
    (by decide)).1

/-- C4: over the container family, `Pso2Ccl.read` fails with
`CorruptRecordCount` exactly when `rel0_size - data_offset` (with
`data_offset = 20`) is not a non-negative integer multiple of 28; sizes off by
1..27 from a multiple fail, and since `rel0_size` is unsigned, every negative
difference is automatically not such a multiple and also fails. -/
theorem c4_corrupt_record_count_iff (hb a b payload : List Nat) (sz : Nat)
    (hhb : hb.length < 2 ^ 32) (ha : a.length = 4) (hsz : sz < 2 ^ 32)
    (hbl : b.length = 8) :
    pso2CclRead (mkContainer hb a sz b payload) = .error .corruptRecordCount ↔
      ¬ ∃ k : Nat, sz = 20 + 28 * k := by
  rw [pso2CclRead_mkContainer hb a b payload sz hhb ha hsz hbl]
  by_cases h : ((sz : Int) - 20) % 28 = 0
  · rw [if_neg (by simpa using h)]
    have hex : ∃ k : Nat, sz = 20 + 28 * k := (corrupt_cond_iff sz).mp h
    constructor
    · intro hc
      exfalso
      cases hrl : recList payload ((((sz : Int) - 20)) / 28).toNat with
      | error e =>
        rw [hrl] at hc
        cases hc
        exact recList_ne_corrupt payload _ hrl
      | ok cs =>
        rw [hrl] at hc
        cases hc
    · intro hn
      exact absurd hex hn
  · rw [if_pos (by simpa using h)]
    constructor
    · intro _
      exact fun hex => h ((corrupt_cond_iff sz).mpr hex)
    · intro _
      rfl

/-- C4 witness: a container whose declared size 21 is off by one from a
multiple of 28 fails with `CorruptRecordCount`. -/
theorem c4_corrupt_record_count_iff_witness :
    pso2CclRead (mkContainer [] [0, 0, 0, 0] 21 [0, 0, 0, 0, 0, 0, 0, 0] []) =
      .error .corruptRecordCount :=
  (c4_corrupt_record_count_iff [] [0, 0, 0, 0] [0, 0, 0, 0, 0, 0, 0, 0] [] 21
    (by norm_num) rfl (by norm_num) rfl).mpr (by rintro ⟨k, hk⟩; omega)

/-- C6: `Pso2Ccl.read` fails with `InvalidMagic` whenever the first four bytes
differ from `NIFL`, and fails with `MissingRel0Header` whenever the four bytes
reached after skipping the declared header section differ from `REL0`; in each
case the result is an error carrying no table, not even a partial one. -/
theorem c6_magic_failures :
    (∀ buf : List Nat, buf.take 4 ≠ niflMagic →
      pso2CclRead buf = .error .invalidMagic) ∧
    (∀ hb rest : List Nat, hb.length < 2 ^ 32 → rest.take 4 ≠ rel0Magic →
      pso2CclRead (niflMagic ++ u32le hb.length ++ hb ++ rest) =
        .error .missingRel0Header) := by
  constructor
  · intro buf h
    unfold pso2CclRead
    simp only [ByteReader.readBytes]
    rw [if_pos h]
  · intro hb rest hhb h
    unfold pso2CclRead
    simp only [List.append_assoc, ByteReader.readBytes, ByteReader.seekCur,
      take_nifl, drop_nifl, take_u32le, drop_u32le, unpackU32_u32le hhb,
      List.drop_left, u32le_length]
    rw [if_neg (by simp), if_pos h]

/-- C6 witness: a wrong leading magic and a wrong REL0 magic at concrete
buffers. -/
theorem c6_magic_failures_witness :
    pso2CclRead [88, 88, 88, 88, 0, 0, 0, 0] = .error .invalidMagic ∧
    pso2CclRead (niflMagic ++ u32le 0 ++ [] ++ [88, 88, 88, 88]) =
      .error .missingRel0Header :=
  ⟨c6_magic_failures.1 [88, 88, 88, 88, 0, 0, 0, 0] (by decide),
   by
    have h := c6_magic_failures.2 [] [88, 88, 88, 88] (by norm_num) (by decide)
    simpa using h⟩

/-- C7: `int_to_color` extracts byte 3 as alpha, byte 2 as red, byte 1 as
green and byte 0 as blue, each divided by 255, returned in `(r, g, b, a)`
order. -/
theorem c7_int_to_color_unpacks_argb (b3 b2 b1 b0 : Nat)
    (h3 : b3 < 256) (h2 : b2 < 256) (h1 : b1 < 256) (h0 : b0 < 256) :
    int_to_color (((b3 * 256 + b2) * 256 + b1) * 256 + b0) =
      ((b2 : ℚ) / 255, (b1 : ℚ) / 255, (b0 : ℚ) / 255, (b3 : ℚ) / 255) := by
  have e3 : (((b3 * 256 + b2) * 256 + b1) * 256 + b0) >>> 24 &&& 0xFF = b3 := by
    rw [Nat.shiftRight_eq_div_pow, show (0xFF : Nat) = 2 ^ 8 - 1 by norm_num,
      Nat.and_pow_two_sub_one_eq_mod, show (2 : Nat) ^ 24 = 16777216 by norm_num,
      show (2 : Nat) ^ 8 = 256 by norm_num]
    omega
  have e2 : (((b3 * 256 + b2) * 256 + b1) * 256 + b0) >>> 16 &&& 0xFF = b2 := by
    rw [Nat.shiftRight_eq_div_pow, show (0xFF : Nat) = 2 ^ 8 - 1 by norm_num,
      Nat.and_pow_two_sub_one_eq_mod, show (2 : Nat) ^ 16 = 65536 by norm_num,
      show (2 : Nat) ^ 8 = 256 by norm_num]
    omega
  have e1 : (((b3 * 256 + b2) * 256 + b1) * 256 + b0) >>> 8 &&& 0xFF = b1 := by
    rw [Nat.shiftRight_eq_div_pow, show (0xFF : Nat) = 2 ^ 8 - 1 by norm_num,
      Nat.and_pow_two_sub_one_eq_mod, show (2 : Nat) ^ 8 = 256 by norm_num]
    omega
  have e0 : (((b3 * 256 + b2) * 256 + b1) * 256 + b0) >>> 0 &&& 0xFF = b0 := by
    rw [Nat.shiftRight_eq_div_pow, show (0xFF : Nat) = 2 ^ 8 - 1 by norm_num,
      Nat.and_pow_two_sub_one_eq_mod, show (2 : Nat) ^ 8 = 256 by norm_num,
      show (2 : Nat) ^ 0 = 1 by norm_num]
    omega
  unfold int_to_color
  rw [e3, e2, e1, e0]

/-- C7 witness: `int_to_color 0xFF804020 = (0x80/255, 0x40/255, 0x20/255,
0xFF/255)`. -/
theorem c7_int_to_color_unpacks_argb_witness :
    int_to_color 0xFF804020 =
      ((0x80 : ℚ) / 255, (0x40 : ℚ) / 255, (0x20 : ℚ) / 255, (0xFF : ℚ) / 255) := by
  have h := c7_int_to_color_unpacks_argb 0xFF 0x80 0x40 0x20
    (by norm_num) (by norm_num) (by norm_num) (by norm_num)
  norm_num at h ⊢
  exact h

/-- C8: the id→record table built by the `Pso2Ccl` constructor maps every id
to the LAST record in file order carrying that id (first match in the reversed
list); construction is total (no error) and ids without duplicates are
unaffected, both immediate from this characterisation. -/
theorem c8_last_record_wins (l : List Pso2CclColorSet) (k : Nat) :
    (Pso2Ccl.ofList l).getItem k = l.reverse.find? (fun s => s.id == k) :=
  ofList_getItem l k

/-- C5: `split_bone_name` tries the canonical prefix pattern first and the
legacy suffix pattern second: `(12)Arm#short1#short2` and
`Arm#short1#short2(12)` both decode to `(Arm#short1#short2, 12)`, and any
string matching the prefix pattern decodes to that pattern's captures (prefix
id wins over the suffix pattern). -/
theorem c5_decode_formats_and_priority :
    split_bone_name "(12)Arm#short1#short2".toList =
      some ("Arm#short1#short2".toList, 12) ∧
    split_bone_name "Arm#short1#short2(12)".toList =
      some ("Arm#short1#short2".toList, 12) ∧
    ∀ (s ds rest : List Char), bonePatternMatch s = some (ds, rest) →
      split_bone_name s = some (rest, digitsToNat ds) := by
  refine ⟨by decide, by decide, ?_⟩
  intro s ds rest h
  unfold split_bone_name
  rw [h]

/-- C5 witness: on `(1)x(2)`, which matches both patterns, pattern 1's
captures win. -/
theorem c5_decode_formats_and_priority_witness :
    split_bone_name "(1)x(2)".toList = some ("x(2)".toList, 1) :=
  (c5_decode_formats_and_priority.2.2 "(1)x(2)".toList "1".toList
    "x(2)".toList (by decide)).trans (by decide)

/-- C9: for EVERY non-empty newline-free name — `#`, `(` and `)` included —
and every id ≥ 0, `split_bone_name (join_bone_name n id) = (n, id)`: the
prefix pattern's trailing capture group subsumes any such remainder. -/
theorem c9_roundtrip_general (n : List Char) (i : Nat) (hne : n ≠ [])
    (hnl : '\n' ∉ n) :
    split_bone_name (join_bone_name n i) = some (n, i) :=
  splitJoin n i hne hnl

/-- C9 witness: the round trip at the concrete name `Arm#a(b)#c`, id 12. -/
theorem c9_roundtrip_general_witness :
    split_bone_name (join_bone_name "Arm#a(b)#c".toList 12) =
      some ("Arm#a(b)#c".toList, 12) :=
  c9_roundtrip_general "Arm#a(b)#c".toList 12 (by decide) (by decide)

/-- C10: a well-formed container whose `rel0_size` equals the computed data
offset (20) decodes successfully to an empty table regardless of trailing
bytes; looking up any id in the empty table, or any absent id in any table,
returns `none` rather than raising. -/
theorem c10_zero_records_and_missing_ids :
    (∀ hb a b extra : List Nat, hb.length < 2 ^ 32 → a.length = 4 →
      b.length = 8 →
      pso2CclRead (mkContainer hb a 20 b extra) = .ok (Pso2Ccl.ofList []) ∧
      ∀ k, (Pso2Ccl.ofList []).getItem k = none) ∧
    (∀ (l : List Pso2CclColorSet) (k : Nat), (∀ s ∈ l, s.id ≠ k) →
      (Pso2Ccl.ofList l).getItem k = none) := by
  constructor
  · intro hb a b extra hhb ha hbl
    constructor
    · rw [pso2CclRead_mkContainer hb a b extra 20 hhb ha (by norm_num) hbl]
      rw [if_neg (by decide)]
      rw [show ((((20 : Nat) : Int) - 20) / 28).toNat = 0 from by decide]
      rfl
    · intro k
      rfl
  · intro l k h
    rw [ofList_getItem]
    apply List.find?_eq_none.mpr
    intro s hs
    simpa using h s (List.mem_reverse.mp hs)

/-- C10 witness: a concrete zero-record container decodes to the empty table,
lookups in it return `none`, and an absent id in a non-empty table returns
`none`. -/
theorem c10_zero_records_and_missing_ids_witness :
    pso2CclRead (mkContainer [] [0, 0, 0, 0] 20 [0, 0, 0, 0, 0, 0, 0, 0] [1, 2, 3]) =
      .ok (Pso2Ccl.ofList []) ∧
    (Pso2Ccl.ofList []).getItem 5 = none ∧
    (Pso2Ccl.ofList [⟨1, 2, 3, 4, 5, 6, 7⟩]).getItem 9 = none :=
  ⟨(c10_zero_records_and_missing_ids.1 [] [0, 0, 0, 0] [0, 0, 0, 0, 0, 0, 0, 0]
      [1, 2, 3] (by norm_num) rfl rfl).1,
   (c10_zero_records_and_missing_ids.1 [] [0, 0, 0, 0] [0, 0, 0, 0, 0, 0, 0, 0]
      [1, 2, 3] (by norm_num) rfl rfl).2 5,
   c10_zero_records_and_missing_ids.2 [⟨1, 2, 3, 4, 5, 6, 7⟩] 9 (by decide)⟩

end Pso2Tools
